import Mathlib

/-!
Verification development for the cargo-workspaces release-orchestration core.

The Rust sources are shallowly embedded:
* `src/cargo-workspaces/src/utils/pkg.rs` — package model, group names and the
  `get_group_packages` classifier;
* `src/cargo-workspaces/src/utils/git.rs` — `GitOpt::validate` and `GitOpt::tag`;
* `src/cargo-workspaces/src/publish.rs` — the per-package publish loop.

External collaborators (the glob matcher, the git binary, the cargo binary and
the registry index) are modelled as oracle parameters: a function argument or an
environment record field stands for the textual answer the external process
would give, and the embedded code consumes it exactly where the Rust code
consumes the process output.
-/

namespace CargoWorkspaces

/-! ## Package model (pkg.rs) -/

/-- The shape a crate manifest's `package.version` field can take once the TOML
layer has read it.  `vstr` is a plain version string, `vtable b` is the table
form `version.workspace = b`, and `malformed` stands for any manifest text that
does not deserialize into the narrow `CrateManifest` shape at all. -/
inductive VersionField where
  | vstr (s : String)
  | vtable (workspace : Bool)
  | malformed
  deriving DecidableEq, Repr

/-- Result of deserializing `CrateManifestPackageEntryVersion` (pkg.rs:435-446):
the untagged enum accepts either a plain string or `{ workspace = true }`. -/
inductive CrateVersion where
  | string (s : String)
  | workspaceTable
  deriving DecidableEq, Repr

/-- `validate_workspace_version_value` (pkg.rs:448-455): only `true` is accepted
for `version.workspace`; `false` is a deserialization error. -/
def validate_workspace_version_value (b : Bool) : Option Unit :=
  if b then some () else none

/-- Deserialization of the `package.version` field into
`CrateManifestPackageEntryVersion` (pkg.rs:435-455).  `none` is a parse error:
either the manifest text is malformed or `version.workspace` is not `true`. -/
def parseCrateManifest : VersionField → Option CrateVersion
  | .vstr s => some (.string s)
  | .vtable b => (validate_workspace_version_value b).map fun _ => .workspaceTable
  | .malformed => none

/-- One workspace member, as `get_group_packages` sees it after resolving the
metadata entry (pkg.rs:20-34 and 246-279).  `path` is the workspace-relative
path (`.` for the root).  `manifest_file` is the `package.version` field of the
manifest file on disk; `none` means reading the file from disk fails (an
`std::fs::read_to_string` error).  `publish` mirrors cargo metadata's
`publish` field; `deps` lists the names of the package's dependencies. -/
structure Pkg where
  name : String
  version : String
  path : String
  manifest_path : String
  manifest_file : Option VersionField
  publish : Option (List String)
  deps : List String
  deriving DecidableEq, Repr

/-- `private = pkg.publish.as_ref().map_or(false, Vec::is_empty)` (pkg.rs:248). -/
def Pkg.is_private (p : Pkg) : Bool :=
  (p.publish.map List.isEmpty).getD false

/-- `GroupName` (pkg.rs:117-125). -/
inductive GroupName where
  | Default
  | Excluded
  | Custom (name : String)
  deriving DecidableEq, Repr

/-- `GroupName::validate` (pkg.rs:151-160): reject `:` and space.  The scan is
byte-wise in the source; `:` and space are single ASCII bytes, so a char-wise
scan finds the same first offender. -/
def GroupName.validate (s : String) : Except String Unit :=
  match s.toList.find? (fun c => c == ':' || c == ' ') with
  | some c =>
      if c == ':' then
        .error ("invalid character `:` in group name: `" ++ s ++ "`")
      else
        .error ("unexpected space in group name: `" ++ s ++ "`")
  | none => .ok ()

/-- Errors of the embedded classifier, mirroring `utils::Error` (error.rs). -/
inductive WsError where
  | ReservedGroupName (name : String)
  | InvalidGroupName (msg : String)
  | DuplicateGroupName (name : String)
  | EmptyGroup (name : String)
  | PackageExistsInMultipleGroups
      (name : String) (rel_path : String) (inherits : Bool) (groups : List GroupName)
  | EmptyWorkspace
  | UnmatchedCustomGroupPattern (unmatched : List (String × List String))
  | UnmatchedExcludeGroupPattern (patterns : List String)
  | ManifestRead (manifest_path : String)
  deriving DecidableEq, Repr

/-- `GroupName::new` (pkg.rs:128-136). -/
def GroupName.new (name : String) : Except WsError GroupName :=
  if name == "default" || name == "excluded" then
    .error (.ReservedGroupName name)
  else
    match GroupName.validate name with
    | .error msg => .error (.InvalidGroupName msg)
    | .ok _ => .ok (.Custom name)

/-- A custom group declaration from the workspace configuration: name, optional
group-wide version override, and the ordered member glob patterns. -/
structure GroupSpec where
  name : String
  version : Option String
  members : List String
  deriving DecidableEq, Repr

/-- The exclusion group declaration: its member glob patterns. -/
structure ExcludeSpec where
  members : List String
  deriving DecidableEq, Repr

/-- The parts of `WorkspaceConfig` consumed by the embedded code. -/
structure WorkspaceConfig where
  version : Option String
  groups : List GroupSpec
  exclude : Option ExcludeSpec
  allow_branch : Option String
  no_individual_tags : Option Bool
  deriving DecidableEq, Repr

/-- The `named_groups` accumulator: group name to (group version override,
packages pushed so far, each with the member pattern that claimed it).
The source uses a `HashMap`; an association list keyed by `GroupName`
carries the same lookups. -/
abbrev Groups := List (GroupName × (Option String × List (Pkg × Option String)))

/-- First member list of `gs` stored under key `k`. -/
def lookupGroup (gs : Groups) (k : GroupName) : List (Pkg × Option String) :=
  ((gs.lookup k).map (·.2)).getD []

/-- The fold at pkg.rs:219-244: seed `default` and `excluded`, then insert each
declared custom group, rejecting reserved/invalid names, duplicates and empty
member lists (in that order). -/
def buildNamedGroups (cfg : WorkspaceConfig) : Except WsError Groups :=
  cfg.groups.foldlM
    (fun acc group =>
      match GroupName.new group.name with
      | .error e => .error e
      | .ok group_name =>
          if (acc.lookup group_name).isSome then
            .error (.DuplicateGroupName group.name)
          else if group.members.isEmpty then
            .error (.EmptyGroup group.name)
          else
            .ok (acc ++ [(group_name, (group.version, []))]))
    [(GroupName.Default, (cfg.version, [])), (GroupName.Excluded, (none, []))]

/-- The exclusion scan at pkg.rs:282-291: the first exclusion pattern matching
the package's workspace-relative path, if any.  `m pat path` is the external
glob engine's answer for pattern `pat` against `path`. -/
def matchExclude (m : String → String → Bool) (exclude : Option ExcludeSpec)
    (path : String) : Option String :=
  exclude.bind fun spec => spec.members.find? fun pat => m pat path

/-- The custom-group scan at pkg.rs:293-307: for each declared group, its first
matching member pattern (the inner loop `break`s at the first match); every
group with a match is collected, in declaration order. -/
def matchedGroups (m : String → String → Bool) (groups : List GroupSpec)
    (path : String) : List (GroupName × Option String) :=
  groups.filterMap fun group =>
    (group.members.find? fun pat => m pat path).map fun pat =>
      (GroupName.Custom group.name, some pat)

/-- The body of the `'found_group` loop (pkg.rs:281-343) for one package:
exclusion first; otherwise collect group matches, run the
inherited-version check against the manifest on disk, then dispatch on the
number of matched groups. -/
def classifyPkg (m : String → String → Bool) (cfg : WorkspaceConfig) (p : Pkg) :
    Except WsError (GroupName × Option String) :=
  match matchExclude m cfg.exclude p.path with
  | some pat => .ok (GroupName.Excluded, some pat)
  | none =>
      let matched := matchedGroups m cfg.groups p.path
      match p.manifest_file with
      | none => .error (.ManifestRead p.manifest_path)
      | some field =>
          if parseCrateManifest field == some CrateVersion.workspaceTable
              && !matched.isEmpty then
            .error (.PackageExistsInMultipleGroups p.name p.path true
              (matched.map (·.1)))
          else
            match matched with
            | [] => .ok (GroupName.Default, none)
            | [g] => .ok g
            | gs =>
                .error (.PackageExistsInMultipleGroups p.name p.path false
                  (gs.map (·.1)))

/-- `named_groups.get_mut(&group_name)...push(...)` (pkg.rs:345-349). -/
def groupsPush (gs : Groups) (gn : GroupName) (entry : Pkg × Option String) :
    Groups :=
  gs.map fun e => if e.1 = gn then (e.1, (e.2.1, e.2.2 ++ [entry])) else e

/-- The member loop of `get_group_packages` (pkg.rs:246-356) restricted to the
resolved packages: classify each package in turn, pushing it into its group.
The boolean accumulator is the `non_empty` flag; the source sets it
(pkg.rs:295) only after the exclusion check has not fired, so packages sent
to `Excluded` never set it. -/
def classifyAll (m : String → String → Bool) (cfg : WorkspaceConfig) :
    List Pkg → Groups → Bool → Except WsError (Groups × Bool)
  | [], gs, non_empty => .ok (gs, non_empty)
  | p :: rest, gs, non_empty =>
      match classifyPkg m cfg p with
      | .error e => .error e
      | .ok (gn, pat) =>
          classifyAll m cfg rest (groupsPush gs gn (p, pat))
            (non_empty || (matchExclude m cfg.exclude p.path).isNone)

/-- First-occurrence deduplication (`seen` carries the elements already kept):
mirrors inserting each element into a set while preserving the order in which
fresh elements appear. -/
def dedupSeen (seen : List String) : List String → List String
  | [] => []
  | x :: xs => if x ∈ seen then dedupSeen seen xs else x :: dedupSeen (x :: seen) xs

/-- Whether `pat` is the recorded claiming pattern of some package stored under
group `gn` — the inner scan of the unmatched-pattern phase (pkg.rs:369-373 and
389-392). -/
def recordedPat (gs : Groups) (gn : GroupName) (pat : String) : Bool :=
  (lookupGroup gs gn).any fun e => e.2 == some pat

/-- The unmatched-pattern collection for custom groups (pkg.rs:362-379): a
declared pattern is unmatched when it is not the recorded claiming pattern of
any package in its group; unmatched patterns are collected per group (the
`HashSet` is mirrored by `dedupSeen`). -/
def unmatchedCustom (cfg : WorkspaceConfig) (gs : Groups) :
    List (String × List String) :=
  cfg.groups.filterMap fun group =>
    if (dedupSeen [] (group.members.filter fun pat =>
          !recordedPat gs (GroupName.Custom group.name) pat)).isEmpty then none
    else
      some (group.name, dedupSeen [] (group.members.filter fun pat =>
        !recordedPat gs (GroupName.Custom group.name) pat))

/-- The unmatched-pattern collection for the exclusion group (pkg.rs:385-401). -/
def unmatchedExclude (spec : ExcludeSpec) (gs : Groups) : List String :=
  dedupSeen [] (spec.members.filter fun pat => !recordedPat gs GroupName.Excluded pat)

/-- Final per-group sort by package name and private filtering
(pkg.rs:403-422). -/
def finalizeGroups (gs : Groups) (all : Bool) :
    List (GroupName × (Option String × List Pkg)) :=
  gs.map fun e =>
    (e.1, (e.2.1,
      ((e.2.2.insertionSort fun a b => a.1.name ≤ b.1.name).filterMap
        fun entry => if all || !entry.1.is_private then some entry.1 else none)))

/-- The post-classification phase of `get_group_packages`: the custom-group
unmatched-pattern check (pkg.rs:362-383), the exclusion unmatched-pattern
check (pkg.rs:385-401), then sorting and private filtering
(pkg.rs:403-422). -/
def postClassify (cfg : WorkspaceConfig) (gs : Groups) (all : Bool) :
    Except WsError (List (GroupName × (Option String × List Pkg))) :=
  if !(unmatchedCustom cfg gs).isEmpty then
    .error (.UnmatchedCustomGroupPattern (unmatchedCustom cfg gs))
  else
    match cfg.exclude with
    | some spec =>
        if !(unmatchedExclude spec gs).isEmpty then
          .error (.UnmatchedExcludeGroupPattern (unmatchedExclude spec gs))
        else .ok (finalizeGroups gs all)
    | none => .ok (finalizeGroups gs all)

/-- `get_group_packages` (pkg.rs:212-423), over the resolved workspace members:
build the named groups, run the member loop, apply the `EmptyWorkspace` check
(pkg.rs:358-360), then the post-classification phase. -/
def get_group_packages (m : String → String → Bool) (cfg : WorkspaceConfig)
    (members : List Pkg) (all : Bool) :
    Except WsError (List (GroupName × (Option String × List Pkg))) :=
  match buildNamedGroups cfg with
  | .error e => .error e
  | .ok init =>
      match classifyAll m cfg members init false with
      | .error e => .error e
      | .ok (gs, non_empty) =>
          if !non_empty then .error .EmptyWorkspace
          else postClassify cfg gs all

/-! ## Dependency graph builder (spec §4.2)

The `dag` helper lives in `utils` but its file is not part of the sources at
hand; only its caller `publish.rs:71` is.  It is modelled from the spec. -/

/-- The intra-workspace dependencies of `p`: edges are constructed only for
dependencies whose name matches another package in the same input set
(spec §4.2); external dependencies are ignored. -/
def wsDeps (pkgs : List Pkg) (p : Pkg) : List Pkg :=
  p.deps.filterMap fun d => pkgs.find? fun q => q.name == d

/-- A cycle among workspace-internal dependencies is a fatal configuration
error (spec §4.2). -/
inductive DagError where
  | cycle (name : String)
  deriving DecidableEq, Repr

/-- Modelled from the spec: the depth-first walk of the dependency-graph
builder (spec §4.2), whose source file is not among the sources at hand.
`allowed` is the complement of the current DFS stack: a package already
appended to the output (`vs`) is skipped; a package neither appended nor
`allowed` is on the current stack, which is a dependency cycle; otherwise the
package's unvisited intra-workspace dependencies are visited first and the
package's manifest location is appended after them (post-order). -/
def visitMany (pkgs : List Pkg) :
    List String → List Pkg → List String → Except DagError (List String)
  | _, [], vs => .ok vs
  | allowed, p :: rest, vs =>
      if p.manifest_path ∈ vs then visitMany pkgs allowed rest vs
      else if _h : p.name ∈ allowed then
        match visitMany pkgs (allowed.filter (· ≠ p.name)) (wsDeps pkgs p) vs with
        | .error e => .error e
        | .ok vs' => visitMany pkgs allowed rest (vs' ++ [p.manifest_path])
      else .error (.cycle p.name)
termination_by allowed work _ => (allowed.length, work.length)
decreasing_by
  · exact Prod.Lex.right _ (Nat.lt_succ_self _)
  · apply Prod.Lex.left
    exact List.length_filter_lt_length_iff_exists.mpr ⟨p.name, _h, by simp⟩
  · exact Prod.Lex.right _ (Nat.lt_succ_self _)

/-- Modelled from the spec: `order(packages) -> orderedList` (spec §4.2) — every
input package's manifest location, arranged so that each package's
intra-workspace dependencies occur before it; the lookup map the source also
returns is plain retrieval and is not modelled. -/
def dag (pkgs : List Pkg) : Except DagError (List String) :=
  visitMany pkgs (pkgs.map (·.name)) pkgs []

/-- `DependsOn pkgs a b`: package `a` declares a dependency resolved to
workspace package `b`. -/
def DependsOn (pkgs : List Pkg) (a b : Pkg) : Prop :=
  a ∈ pkgs ∧ b ∈ wsDeps pkgs a

/-- Topological soundness of an output list: whenever a package's location is
listed, the locations of its intra-workspace dependencies are listed before
it. -/
def goodOrder (pkgs : List Pkg) (vs : List String) : Prop :=
  ∀ p, p ∈ pkgs → p.manifest_path ∈ vs →
    ∀ q, q ∈ wsDeps pkgs p →
      q.manifest_path ∈ vs ∧
        vs.indexOf q.manifest_path < vs.indexOf p.manifest_path

/-! ## Publish pipeline (publish.rs) -/

/-- One observable step of the publish loop: `skip` is the
"already published" branch (publish.rs:104-107), `publish` is a completed
`cargo publish` invocation whose output carried the upload marker
(publish.rs:130-138). -/
inductive PubAction where
  | skip (name ver : String)
  | publish (name ver : String)
  deriving DecidableEq, Repr

/-- Publish-loop failures: `Error::Publish` (missing upload marker or an error
marker in the output) and the registry-propagation timeout of `check_index`. -/
inductive PubError where
  | publishFail (name : String)
  | publishTimeout
  deriving DecidableEq, Repr

/-- Oracle answers of the external collaborators consulted by the loop:
`published name ver` is the registry index's answer to `is_published`;
`uploadOk name` is whether the `cargo publish` output contains `Uploading`
and no `error:` marker; `indexOk name` is whether `check_index` sees the
version propagate before its bound (modelled from the spec, §4.4 step 4, as
`check_index` is not among the sources at hand). -/
structure PubEnv where
  published : String → String → Bool
  uploadOk : String → Bool
  indexOk : String → Bool

/-- The per-package loop of `Publish::run` (publish.rs:86-139) over the
dependency-ordered, visibility-filtered plan: query the index and skip if the
planned version is already present; otherwise invoke `cargo publish`, fail
without an upload marker, then wait for the index.  Returns the actions
performed, in order, and the error that stopped the loop, if any. -/
def publishLoop (env : PubEnv) :
    List (Pkg × String) → List PubAction × Option PubError
  | [] => ([], none)
  | (pkg, ver) :: rest =>
      if env.published pkg.name ver then
        let r := publishLoop env rest
        (.skip pkg.name ver :: r.1, r.2)
      else if env.uploadOk pkg.name then
        if env.indexOk pkg.name then
          let r := publishLoop env rest
          (.publish pkg.name ver :: r.1, r.2)
        else ([.publish pkg.name ver], some .publishTimeout)
      else ([], some (.publishFail pkg.name))

/-- The publish actions a run performed, as (name, version) pairs. -/
def publishes (acts : List PubAction) : List (String × String) :=
  acts.filterMap fun a =>
    match a with
    | .publish n v => some (n, v)
    | .skip _ _ => none

/-- The visibility filter of `Publish::run` (publish.rs:74-84): packages with
no publish restriction list, or a non-empty allow-list, are publishable. -/
def filterPublishable (pkgs : List (Pkg × String)) (visited : List String) :
    List String :=
  visited.filter fun x =>
    match pkgs.find? fun e => e.1.manifest_path == x with
    | some e => e.1.publish.isNone || !((e.1.publish.getD []).isEmpty)
    | none => false

/-! ## Git release state machine (git.rs) -/

/-- The `GitOpt` flags consumed by `validate` and the tag helpers. -/
structure GitOpt where
  no_git : Bool
  no_git_commit : Bool
  no_git_tag : Bool
  no_individual_tags : Bool
  no_global_tag : Bool
  no_git_push : Bool
  allow_branch : Option String
  git_remote : String
  deriving DecidableEq, Repr

/-- Oracle answers of the git binary for the queries `validate` issues, in
order.  `not_a_repo` is whether the stderr of the first `rev-list` contains
`not a git repository`; `commit_count` is the numeric output of
`rev-list --count --all --max-count=1`; `remote_refs` are the lines of
`for-each-ref ... refs/remotes/<remote>`; `head_branch` is the output of
`rev-parse --abbrev-ref HEAD` (`HEAD` when detached).  For the divergence
query `rev-list --left-only --count <remote>/<branch>...<branch>`,
`remote_ahead_of_local` is its numeric output — by git's symmetric-difference
semantics the commits reachable from the left ref (the remote branch) and not
from the local branch; `local_ahead_of_remote` is the opposite side, which the
code never requests. -/
structure GitEnv where
  not_a_repo : Bool
  commit_count : Nat
  remote_refs : List String
  head_branch : String
  remote_ahead_of_local : Nat
  local_ahead_of_remote : Nat
  deriving DecidableEq, Repr

/-- Git-side errors of the embedded steps (error.rs:133-154). -/
inductive GitError where
  | NotGit
  | NoCommits
  | NotBranch
  | NoRemote (remote : String)
  | BranchNotAllowed (branch pattern : String)
  | BehindRemote (upstream branch : String)
  | NotTagged (tag : String)
  | GlobParse (pattern : String)
  deriving DecidableEq, Repr

/-- The `main`-for-`master` aliasing of `GitOpt::validate` (git.rs:181-186). -/
def testBranchOf (branch allow_branch : String) : String :=
  if branch == "main" && allow_branch == "master" then "master" else branch

/-- `GitOpt::validate` (git.rs:122-219).  `glob pat` is the external glob
compiler: `none` when `Glob::new` rejects the pattern, otherwise the compiled
matcher. -/
def GitOpt.validate (opt : GitOpt) (cfg : WorkspaceConfig)
    (glob : String → Option (String → Bool)) (env : GitEnv) :
    Except GitError (Option String) :=
  if opt.no_git then .ok none
  else if env.not_a_repo then .error .NotGit
  else if env.commit_count == 0 then .error .NoCommits
  else if opt.no_git_push
      || (opt.no_git_commit
          && (opt.no_git_tag || (opt.no_global_tag && opt.no_individual_tags))) then
    .ok none
  else if env.remote_refs.isEmpty then .error (.NoRemote opt.git_remote)
  else
    let branch := env.head_branch
    if branch == "HEAD" then
      if opt.no_git_commit then .ok none else .error .NotBranch
    else
      let allow_branch := opt.allow_branch.getD (cfg.allow_branch.getD "master")
      let test_branch := testBranchOf branch allow_branch
      match glob allow_branch with
      | none => .error (.GlobParse allow_branch)
      | some matcher =>
          if !matcher test_branch then
            .error (.BranchNotAllowed branch allow_branch)
          else if env.remote_ahead_of_local ≠ 0 then
            .error (.BehindRemote (opt.git_remote ++ "/" ++ branch) branch)
          else .ok (some branch)

/-- Outcome of one `GitOpt::tag` call. -/
inductive TagOutcome where
  | created
  | alreadyExists
  deriving DecidableEq, Repr

/-- `GitOpt::tag` (git.rs:385-406) against the local tag list (the lines of
`git tag` output): if the tag already exists, report so and mutate nothing;
otherwise run `git tag <tag> -a -m ...`, whose exit status the oracle
`create_ok` reports, appending the tag on success.  `msgs` carries the `-m`
arguments, which do not influence the tag list. -/
def GitOpt.tag (tags : List String) (tag : String) (msgs : List String)
    (create_ok : Bool) : Except GitError (List String × TagOutcome) :=
  if tags.contains tag then .ok (tags, .alreadyExists)
  else if create_ok then .ok (tags ++ [tag], .created)
  else .error (.NotTagged tag)

/-! ## Concrete instances used by counterexamples and witnesses -/

/-- A tiny concrete stand-in for the external glob engine, consistent with the
real engine on the literal patterns and the single pattern `crates/*` used in
the concrete scenarios: a literal pattern matches exactly itself, and
`crates/*` matches everything under `crates/`. -/
def demoMatch (pat path : String) : Bool :=
  pat == path || (pat == "crates/*" && path == "crates/foo")

/-- A package builder for concrete scenarios: a public package with a plain
(non-inherited) manifest version. -/
def demoPkg (name path : String) (deps : List String) : Pkg :=
  { name := name, version := "0.1.0", path := path,
    manifest_path := path ++ "/Cargo.toml",
    manifest_file := some (.vstr "0.1.0"), publish := none, deps := deps }

/-- Workspace configuration of the C4 scenario: one custom group `g` whose
second member pattern is shadowed by its first. -/
def cfgShadow : WorkspaceConfig :=
  { version := none,
    groups := [{ name := "g", version := none,
                 members := ["crates/*", "crates/foo"] }],
    exclude := none, allow_branch := none, no_individual_tags := none }

/-- Workspace configuration of the C5 scenario: no custom groups, one exclusion
pattern that matches the only member. -/
def cfgAllExcluded : WorkspaceConfig :=
  { version := none, groups := [],
    exclude := some { members := ["pkg-a"] },
    allow_branch := none, no_individual_tags := none }

/-- A three-package chain for the dependency-order witness: `b` depends on `a`,
`c` depends on `b`. -/
def chainPkgs : List Pkg :=
  [demoPkg "a" "crates/a" [], demoPkg "b" "crates/b" ["a"],
   demoPkg "c" "crates/c" ["b"]]

/-- Concrete `GitOpt` with the command-line defaults: no skip flag set, no
`--allow-branch`, remote `origin`. -/
def demoGitOpt : GitOpt :=
  { no_git := false, no_git_commit := false, no_git_tag := false,
    no_individual_tags := false, no_global_tag := false, no_git_push := false,
    allow_branch := none, git_remote := "origin" }

/-- A workspace configuration with no `allow_branch` entry. -/
def demoCfg : WorkspaceConfig :=
  { version := none, groups := [], exclude := none, allow_branch := none,
    no_individual_tags := none }

/-- A literal-equality glob oracle: every pattern compiles, and matches exactly
itself — the real engine's behaviour on the literal patterns appearing in the
concrete scenarios. -/
def demoGlob : String → Option (String → Bool) :=
  fun pat => some fun s => pat == s

/-- Git oracle answers of a healthy repository on branch `b`, with the given
commit counts on the two sides of the `remote/b...b` comparison. -/
def demoGitEnv (b : String) (remoteAhead localAhead : Nat) : GitEnv :=
  { not_a_repo := false, commit_count := 1,
    remote_refs := ["refs/remotes/origin/" ++ b], head_branch := b,
    remote_ahead_of_local := remoteAhead, local_ahead_of_remote := localAhead }

/-- Publish plan of the spec's concrete scenario (§8): three packages `a`,
`b`, `c` in dependency order, all planned at version `1.0.0`. -/
def demoPlan : List (Pkg × String) :=
  [(demoPkg "a" "crates/a" [], "1.0.0"),
   (demoPkg "b" "crates/b" ["a"], "1.0.0"),
   (demoPkg "c" "crates/c" ["b"], "1.0.0")]

/-- Registry/cargo oracles of the first run in the C6 witness: nothing is
published yet, and publishing `b` produces no upload marker. -/
def demoPubEnv0 : PubEnv :=
  { published := fun _ _ => false, uploadOk := fun n => n != "b",
    indexOk := fun _ => true }

/-- Registry/cargo oracles of the second run in the C6 witness: the index now
reports everything the first run published (and more), and `cargo publish`
succeeds. -/
def demoPubEnv1 : PubEnv :=
  { published := fun _ _ => true, uploadOk := fun _ => true,
    indexOk := fun _ => true }

/-- The seeded `named_groups` map of a configuration without custom groups. -/
def demoInit : Groups :=
  [(GroupName.Default, (none, [])), (GroupName.Excluded, (none, []))]

/-- The groups after classifying the single package `a` (path `pkg-a`) of a
configuration without custom groups: it lands in `Default`. -/
def demoGsA : Groups :=
  [(GroupName.Default, (none, [(demoPkg "a" "pkg-a" [], none)])),
   (GroupName.Excluded, (none, []))]

/-! ## Theorems -/

theorem dedupSeen_mem (a : String) :
    ∀ (l seen : List String), a ∈ dedupSeen seen l ↔ a ∈ l ∧ a ∉ seen := by
  intro l
  induction l with
  | nil => intro seen; simp [dedupSeen]
  | cons x xs ih =>
      intro seen
      by_cases hx : x ∈ seen
      · rw [dedupSeen, if_pos hx, ih]
        constructor
        · rintro ⟨h1, h2⟩
          exact ⟨List.mem_cons_of_mem _ h1, h2⟩
        · rintro ⟨h1, h2⟩
          rcases List.mem_cons.mp h1 with rfl | h1'
          · exact absurd hx h2
          · exact ⟨h1', h2⟩
      · rw [dedupSeen, if_neg hx]
        constructor
        · intro h1
          rcases List.mem_cons.mp h1 with rfl | h1'
          · exact ⟨List.mem_cons_self _ _, hx⟩
          · obtain ⟨ha, hs⟩ := (ih (x :: seen)).mp h1'
            exact ⟨List.mem_cons_of_mem _ ha, fun hm => hs (List.mem_cons_of_mem _ hm)⟩
        · rintro ⟨h1, h2⟩
          by_cases hax : a = x
          · subst hax; exact List.mem_cons_self _ _
          · rcases List.mem_cons.mp h1 with h | h1'
            · exact absurd h hax
            · refine List.mem_cons_of_mem _ ((ih (x :: seen)).mpr ⟨h1', fun hm => ?_⟩)
              rcases List.mem_cons.mp hm with h | h
              · exact hax h
              · exact h2 h

theorem dedupSeen_nil_iff (l : List String) : dedupSeen [] l = [] ↔ l = [] := by
  constructor
  · intro h
    rw [List.eq_nil_iff_forall_not_mem]
    intro a ha
    have : a ∈ dedupSeen [] l := (dedupSeen_mem a l []).mpr ⟨ha, by simp⟩
    simp [h] at this
  · rintro rfl; rfl

/-- **C2.** Exclusion priority (pkg.rs:281-291): a package whose
workspace-relative path matches at least one exclusion pattern is assigned to
`Excluded` — no matter what the custom groups declare — and is therefore never
the subject of a `PackageExistsInMultipleGroups` error. -/
theorem c2_exclusion_priority (m : String → String → Bool) (cfg : WorkspaceConfig)
    (p : Pkg) (spec : ExcludeSpec) (hex : cfg.exclude = some spec)
    (hm : ∃ pat ∈ spec.members, m pat p.path = true) :
    (∃ pat, classifyPkg m cfg p = .ok (GroupName.Excluded, some pat)) ∧
    ∀ n rp inh gl,
      classifyPkg m cfg p ≠
        .error (.PackageExistsInMultipleGroups n rp inh gl) := by
  have hfind : (spec.members.find? fun pat => m pat p.path).isSome :=
    List.find?_isSome.mpr hm
  obtain ⟨pat, hpat⟩ := Option.isSome_iff_exists.mp hfind
  have hmx : matchExclude m cfg.exclude p.path = some pat := by
    simp [matchExclude, hex, hpat]
  exact ⟨⟨pat, by simp [classifyPkg, hmx]⟩, fun n rp inh gl => by simp [classifyPkg, hmx]⟩

/-- Closed witness for `c2_exclusion_priority`. -/
theorem c2_exclusion_priority_witness :
    (∃ pat, classifyPkg demoMatch cfgAllExcluded (demoPkg "a" "pkg-a" [])
        = .ok (GroupName.Excluded, some pat)) ∧
    ∀ n rp inh gl,
      classifyPkg demoMatch cfgAllExcluded (demoPkg "a" "pkg-a" []) ≠
        .error (.PackageExistsInMultipleGroups n rp inh gl) :=
  c2_exclusion_priority demoMatch cfgAllExcluded (demoPkg "a" "pkg-a" [])
    { members := ["pkg-a"] } (by rfl) ⟨"pkg-a", by decide⟩

/-- **C3.** Inheritance conflict (pkg.rs:309-326): a non-excluded package whose
manifest version deserializes to the `workspace = true` table form raises
`PackageExistsInMultipleGroups` with `inherits = true` whenever at least one
custom group matched — even exactly one — and goes to `Default` when no custom
group matched. -/
theorem c3_inheritance_conflict (m : String → String → Bool)
    (cfg : WorkspaceConfig) (p : Pkg) (f : VersionField)
    (hex : matchExclude m cfg.exclude p.path = none)
    (hf : p.manifest_file = some f)
    (hw : parseCrateManifest f = some CrateVersion.workspaceTable) :
    (matchedGroups m cfg.groups p.path ≠ [] →
      classifyPkg m cfg p =
        .error (.PackageExistsInMultipleGroups p.name p.path true
          ((matchedGroups m cfg.groups p.path).map (·.1)))) ∧
    (matchedGroups m cfg.groups p.path = [] →
      classifyPkg m cfg p = .ok (GroupName.Default, none)) := by
  constructor
  · intro hne
    have hemp : (matchedGroups m cfg.groups p.path).isEmpty = false := by
      rcases hgr : matchedGroups m cfg.groups p.path with _ | ⟨g, gs⟩
      · exact absurd hgr hne
      · rfl
    simp [classifyPkg, hex, hf, hw, hemp]
  · intro he
    simp [classifyPkg, hex, hf, hw, he]

/-- Closed witness for `c3_inheritance_conflict`: one matching custom group is
already a conflict. -/
theorem c3_inheritance_conflict_witness :
    (matchedGroups demoMatch cfgShadow.groups "crates/foo" ≠ [] →
      classifyPkg demoMatch cfgShadow
          { demoPkg "foo" "crates/foo" [] with manifest_file := some (.vtable true) } =
        .error (.PackageExistsInMultipleGroups "foo" "crates/foo" true
          ((matchedGroups demoMatch cfgShadow.groups "crates/foo").map (·.1)))) ∧
    (matchedGroups demoMatch cfgShadow.groups "crates/foo" = [] →
      classifyPkg demoMatch cfgShadow
          { demoPkg "foo" "crates/foo" [] with manifest_file := some (.vtable true) } =
        .ok (GroupName.Default, none)) :=
  c3_inheritance_conflict demoMatch cfgShadow
    { demoPkg "foo" "crates/foo" [] with manifest_file := some (.vtable true) }
    (.vtable true) (by rfl) (by rfl) (by rfl)

/-- **C10.** Manifest-parse failures are swallowed (pkg.rs:309-326): when the
manifest text does not deserialize into the narrow `{package.version}` shape —
malformed TOML or `version.workspace = false` — the `if let Ok(..)` discards
the error and the package is classified as if not workspace-inherited; only a
failure to read the manifest file from disk is fatal. -/
theorem c10_parse_failure_ignored (m : String → String → Bool)
    (cfg : WorkspaceConfig) (p : Pkg)
    (hex : matchExclude m cfg.exclude p.path = none) :
    (∀ f, p.manifest_file = some f → parseCrateManifest f = none →
      (∀ n rp gl, classifyPkg m cfg p ≠
          .error (.PackageExistsInMultipleGroups n rp true gl)) ∧
      (matchedGroups m cfg.groups p.path = [] →
        classifyPkg m cfg p = .ok (GroupName.Default, none)) ∧
      (∀ g, matchedGroups m cfg.groups p.path = [g] →
        classifyPkg m cfg p = .ok g)) ∧
    (p.manifest_file = none →
      classifyPkg m cfg p = .error (.ManifestRead p.manifest_path)) := by
  constructor
  · intro f hf hp
    have hcond : (parseCrateManifest f == some CrateVersion.workspaceTable) = false := by
      simp [hp]
    refine ⟨?_, ?_, ?_⟩
    · intro n rp gl
      rcases hgr : matchedGroups m cfg.groups p.path with _ | ⟨g, _ | ⟨g2, rest⟩⟩ <;>
        simp [classifyPkg, hex, hf, hcond, hgr]
    · intro he
      simp [classifyPkg, hex, hf, hcond, he]
    · intro g hg
      simp [classifyPkg, hex, hf, hcond, hg]
  · intro hnone
    simp [classifyPkg, hex, hnone]

/-- Closed witness for `c10_parse_failure_ignored`: `version.workspace = false`
fails deserialization and the package still lands in its single matched
group. -/
theorem c10_parse_failure_ignored_witness :
    (∀ f, ({ demoPkg "foo" "crates/foo" [] with
              manifest_file := some VersionField.malformed } : Pkg).manifest_file
          = some f →
      parseCrateManifest f = none →
      (∀ n rp gl, classifyPkg demoMatch cfgShadow
          { demoPkg "foo" "crates/foo" [] with
            manifest_file := some VersionField.malformed } ≠
          .error (.PackageExistsInMultipleGroups n rp true gl)) ∧
      (matchedGroups demoMatch cfgShadow.groups "crates/foo" = [] →
        classifyPkg demoMatch cfgShadow
            { demoPkg "foo" "crates/foo" [] with
              manifest_file := some VersionField.malformed } =
          .ok (GroupName.Default, none)) ∧
      (∀ g, matchedGroups demoMatch cfgShadow.groups "crates/foo" = [g] →
        classifyPkg demoMatch cfgShadow
            { demoPkg "foo" "crates/foo" [] with
              manifest_file := some VersionField.malformed } = .ok g)) ∧
    (({ demoPkg "foo" "crates/foo" [] with
         manifest_file := some VersionField.malformed } : Pkg).manifest_file = none →
      classifyPkg demoMatch cfgShadow
          { demoPkg "foo" "crates/foo" [] with
            manifest_file := some VersionField.malformed } =
        .error (.ManifestRead "crates/foo/Cargo.toml")) :=
  c10_parse_failure_ignored demoMatch cfgShadow
    { demoPkg "foo" "crates/foo" [] with manifest_file := some VersionField.malformed }
    (by rfl)

/-- **C7.** Tag idempotence (git.rs:385-406): if the target name is already in
the local tag list the step mutates nothing and reports "already exists";
creating a fresh tag adds it exactly once, and a second run on the resulting
state performs no further git mutation. -/
theorem c7_tag_idempotent (tags : List String) (tag : String)
    (msgs : List String) (create_ok : Bool) (tags1 : List String)
    (out1 : TagOutcome)
    (hrun : GitOpt.tag tags tag msgs create_ok = .ok (tags1, out1)) :
    (tags.contains tag = true → tags1 = tags ∧ out1 = .alreadyExists) ∧
    (∀ msgs2 create_ok2,
      GitOpt.tag tags1 tag msgs2 create_ok2 = .ok (tags1, .alreadyExists)) ∧
    (tags.count tag = 0 → tags1.count tag = 1) := by
  rw [GitOpt.tag] at hrun
  by_cases hc : tags.contains tag = true
  · rw [if_pos hc] at hrun
    injection hrun with h2
    injection h2 with h3 h4
    subst h3; subst h4
    refine ⟨fun _ => ⟨rfl, rfl⟩,
      fun msgs2 create_ok2 => by rw [GitOpt.tag, if_pos hc], fun h0 => ?_⟩
    exact absurd (List.elem_iff.mp hc) (List.count_eq_zero.mp h0)
  · rw [if_neg hc] at hrun
    cases create_ok with
    | false => simp at hrun
    | true =>
        rw [if_pos rfl] at hrun
        injection hrun with h2
        injection h2 with h3 h4
        subst h3; subst h4
        have hmem : (tags ++ [tag]).contains tag = true :=
          List.elem_iff.mpr (by simp)
        refine ⟨fun hcc => absurd hcc hc,
          fun msgs2 create_ok2 => by rw [GitOpt.tag, if_pos hmem], fun h0 => ?_⟩
        rw [List.count_append, h0, List.count_singleton]
        simp

/-- Closed witness for `c7_tag_idempotent`: creating `v1.0.0` once, then again. -/
theorem c7_tag_idempotent_witness :
    ((["v0.1.0"] : List String).contains "v1.0.0" = true →
      ["v0.1.0", "v1.0.0"] = ["v0.1.0"] ∧ TagOutcome.created = .alreadyExists) ∧
    (∀ msgs2 create_ok2,
      GitOpt.tag ["v0.1.0", "v1.0.0"] "v1.0.0" msgs2 create_ok2 =
        .ok (["v0.1.0", "v1.0.0"], .alreadyExists)) ∧
    ((["v0.1.0"] : List String).count "v1.0.0" = 0 →
      (["v0.1.0", "v1.0.0"] : List String).count "v1.0.0" = 1) :=
  c7_tag_idempotent ["v0.1.0"] "v1.0.0" ["v1.0.0"] true ["v0.1.0", "v1.0.0"]
    .created (by rfl)

/-- **C9.** The `master`/`main` aliasing of `GitOpt::validate`
(git.rs:172-195): with the default allow-pattern `master`, a current branch
`main` passes validation; a branch `feature/x` fails with `BranchNotAllowed`;
and the aliasing rewrites the tested branch only when the pattern is exactly
the literal `master` (and the branch exactly `main`). -/
theorem c9_master_main_alias (glob : String → Option (String → Bool))
    (gm : String → Bool) (hglob : glob "master" = some gm)
    (hmaster : gm "master" = true) (hfeature : gm "feature/x" = false) :
    GitOpt.validate demoGitOpt demoCfg glob (demoGitEnv "main" 0 0) =
      .ok (some "main") ∧
    GitOpt.validate demoGitOpt demoCfg glob (demoGitEnv "feature/x" 0 0) =
      .error (.BranchNotAllowed "feature/x" "master") ∧
    (∀ branch allow, allow ≠ "master" → testBranchOf branch allow = branch) ∧
    (∀ branch allow, branch ≠ "main" → testBranchOf branch allow = branch) := by
  refine ⟨?_, ?_, ?_, ?_⟩
  · simp [GitOpt.validate, demoGitOpt, demoCfg, demoGitEnv, testBranchOf, hglob,
      hmaster]
  · simp [GitOpt.validate, demoGitOpt, demoCfg, demoGitEnv, testBranchOf, hglob,
      hfeature]
  · intro branch allow h
    simp [testBranchOf, h]
  · intro branch allow h
    simp [testBranchOf, h]

/-- Closed witness for `c9_master_main_alias`, with a literal-equality glob. -/
theorem c9_master_main_alias_witness :
    GitOpt.validate demoGitOpt demoCfg demoGlob (demoGitEnv "main" 0 0) =
      .ok (some "main") ∧
    GitOpt.validate demoGitOpt demoCfg demoGlob (demoGitEnv "feature/x" 0 0) =
      .error (.BranchNotAllowed "feature/x" "master") ∧
    (∀ branch allow, allow ≠ "master" → testBranchOf branch allow = branch) ∧
    (∀ branch allow, branch ≠ "main" → testBranchOf branch allow = branch) :=
  c9_master_main_alias demoGlob (fun s => "master" == s) (by rfl) (by decide)
    (by decide)

/-- **C8 (counterexample).** The divergence check of `GitOpt::validate`
(git.rs:197-218) runs `rev-list --left-only --count <remote>/<branch>...<branch>`,
which counts commits on the *remote* side of the comparison.  Validation
therefore fails with `BehindRemote` while the local-side count is zero, and
passes while the local side has unpushed commits — refuting the claim that the
check fires exactly on a non-zero local-side count. -/
theorem c8_behind_remote_counterexample :
    GitOpt.validate demoGitOpt demoCfg demoGlob (demoGitEnv "master" 1 0) =
      .error (.BehindRemote "origin/master" "master") ∧
    (demoGitEnv "master" 1 0).local_ahead_of_remote = 0 ∧
    GitOpt.validate demoGitOpt demoCfg demoGlob (demoGitEnv "master" 0 5) =
      .ok (some "master") ∧
    (demoGitEnv "master" 0 5).local_ahead_of_remote = 5 :=
  ⟨rfl, rfl, rfl, rfl⟩

/-- **C8 (amended).** Once the earlier validation checks pass, `GitOpt::validate`
fails with `BehindRemote` exactly when the remote side of the
`<remote>/<branch>...<branch>` comparison is non-zero — i.e. the upstream has
commits not yet present locally — and otherwise returns the validated branch
name. -/
theorem c8_behind_remote (opt : GitOpt) (cfg : WorkspaceConfig)
    (glob : String → Option (String → Bool)) (matcher : String → Bool)
    (env : GitEnv)
    (h1 : opt.no_git = false) (h2 : env.not_a_repo = false)
    (h3 : env.commit_count ≠ 0)
    (h4 : (opt.no_git_push
        || (opt.no_git_commit
            && (opt.no_git_tag || (opt.no_global_tag && opt.no_individual_tags))))
        = false)
    (h5 : env.remote_refs.isEmpty = false)
    (h6 : env.head_branch ≠ "HEAD")
    (h7 : glob (opt.allow_branch.getD (cfg.allow_branch.getD "master")) =
        some matcher)
    (h8 : matcher (testBranchOf env.head_branch
        (opt.allow_branch.getD (cfg.allow_branch.getD "master"))) = true) :
    (GitOpt.validate opt cfg glob env =
        .error (.BehindRemote (opt.git_remote ++ "/" ++ env.head_branch)
          env.head_branch)
      ↔ env.remote_ahead_of_local ≠ 0) ∧
    (env.remote_ahead_of_local = 0 →
      GitOpt.validate opt cfg glob env = .ok (some env.head_branch)) := by
  constructor
  · by_cases hr : env.remote_ahead_of_local = 0
    · simp [GitOpt.validate, h1, h2, h3, h4, h5, h6, h7, h8, hr]
    · simp [GitOpt.validate, h1, h2, h3, h4, h5, h6, h7, h8, hr]
  · intro hr
    simp [GitOpt.validate, h1, h2, h3, h4, h5, h6, h7, h8, hr]

/-- Closed witness for `c8_behind_remote`. -/
theorem c8_behind_remote_witness :
    (GitOpt.validate demoGitOpt demoCfg demoGlob (demoGitEnv "master" 1 0) =
        .error (.BehindRemote
          (demoGitOpt.git_remote ++ "/" ++ (demoGitEnv "master" 1 0).head_branch)
          (demoGitEnv "master" 1 0).head_branch)
      ↔ (demoGitEnv "master" 1 0).remote_ahead_of_local ≠ 0) ∧
    ((demoGitEnv "master" 1 0).remote_ahead_of_local = 0 →
      GitOpt.validate demoGitOpt demoCfg demoGlob (demoGitEnv "master" 1 0) =
        .ok (some (demoGitEnv "master" 1 0).head_branch)) :=
  c8_behind_remote demoGitOpt demoCfg demoGlob (fun s => "master" == s)
    (demoGitEnv "master" 1 0) (by rfl) (by rfl) (by decide) (by rfl) (by rfl)
    (by decide) (by rfl) (by decide)

theorem publishLoop_publish_not_published (env : PubEnv) :
    ∀ (l : List (Pkg × String)) (n v : String),
      PubAction.publish n v ∈ (publishLoop env l).1 → env.published n v = false := by
  intro l
  induction l with
  | nil => intro n v hp; simp [publishLoop] at hp
  | cons e rest ih =>
      intro n v hp
      obtain ⟨pkg, ver⟩ := e
      cases hb : env.published pkg.name ver with
      | true =>
          simp only [publishLoop, hb, if_true] at hp
          rcases List.mem_cons.mp hp with heq | hp'
          · simp at heq
          · exact ih n v hp'
      | false =>
          cases hu : env.uploadOk pkg.name with
          | false => simp [publishLoop, hb, hu] at hp
          | true =>
              cases hi : env.indexOk pkg.name with
              | false =>
                  simp only [publishLoop, hb, hu, hi] at hp
                  simp only [Bool.false_eq_true, if_false, if_true] at hp
                  rcases List.mem_cons.mp hp with heq | hp'
                  · injection heq with hn hv
                    subst hn; subst hv
                    exact hb
                  · simp at hp'
              | true =>
                  simp only [publishLoop, hb, hu, hi] at hp
                  simp only [Bool.false_eq_true, if_false, if_true] at hp
                  rcases List.mem_cons.mp hp with heq | hp'
                  · injection heq with hn hv
                    subst hn; subst hv
                    exact hb
                  · exact ih n v hp'

theorem publishLoop_rerun_skips (env0 env1 : PubEnv)
    (h0 : ∀ n v, env0.published n v = true → env1.published n v = true) :
    ∀ (l : List (Pkg × String)),
      (∀ n v, PubAction.publish n v ∈ (publishLoop env0 l).1 →
        env1.published n v = true) →
      ∀ n v, PubAction.publish n v ∈ (publishLoop env0 l).1 →
        PubAction.skip n v ∈ (publishLoop env1 l).1 := by
  intro l
  induction l with
  | nil => intro _ n v hp; simp [publishLoop] at hp
  | cons e rest ih =>
      intro h1 n v hp
      obtain ⟨pkg, ver⟩ := e
      cases hb : env0.published pkg.name ver with
      | true =>
          have he1 : env1.published pkg.name ver = true := h0 _ _ hb
          simp only [publishLoop, hb, if_true] at hp
          rcases List.mem_cons.mp hp with heq | hp'
          · simp at heq
          · have h1' : ∀ n v, PubAction.publish n v ∈ (publishLoop env0 rest).1 →
                env1.published n v = true := by
              intro n' v' hm
              refine h1 n' v' ?_
              simp only [publishLoop, hb, if_true]
              exact List.mem_cons_of_mem _ hm
            have := ih h1' n v hp'
            simp only [publishLoop, he1, if_true]
            exact List.mem_cons_of_mem _ this
      | false =>
          cases hu : env0.uploadOk pkg.name with
          | false => simp [publishLoop, hb, hu] at hp
          | true =>
              cases hi : env0.indexOk pkg.name with
              | false =>
                  simp only [publishLoop, hb, hu, hi] at hp
                  simp only [Bool.false_eq_true, if_false, if_true] at hp
                  rcases List.mem_cons.mp hp with heq | hp'
                  · injection heq with hn hv
                    have he1 : env1.published pkg.name ver = true := by
                      refine h1 _ _ ?_
                      simp [publishLoop, hb, hu, hi]
                    rw [hn, hv]
                    simp only [publishLoop, he1, if_true]
                    exact List.mem_cons_self _ _
                  · simp at hp'
              | true =>
                  have hmemhead :
                      PubAction.publish pkg.name ver ∈ (publishLoop env0 ((pkg, ver) :: rest)).1 := by
                    simp [publishLoop, hb, hu, hi]
                  have he1 : env1.published pkg.name ver = true := h1 _ _ hmemhead
                  simp only [publishLoop, hb, hu, hi] at hp
                  simp only [Bool.false_eq_true, if_false, if_true] at hp
                  rcases List.mem_cons.mp hp with heq | hp'
                  · injection heq with hn hv
                    rw [hn, hv]
                    simp only [publishLoop, he1, if_true]
                    exact List.mem_cons_self _ _
                  · have h1' : ∀ n v, PubAction.publish n v ∈ (publishLoop env0 rest).1 →
                        env1.published n v = true := by
                      intro n' v' hm
                      refine h1 n' v' ?_
                      simp only [publishLoop, hb, hu, hi]
                      simp only [Bool.false_eq_true, if_false, if_true]
                      exact List.mem_cons_of_mem _ hm
                    have := ih h1' n v hp'
                    simp only [publishLoop, he1, if_true]
                    exact List.mem_cons_of_mem _ this

theorem publishLoop_skip_filter (env : PubEnv) :
    ∀ l : List (Pkg × String),
      publishes (publishLoop env l).1 =
        publishes (publishLoop env
          (l.filter fun e => !(env.published e.1.name e.2))).1 ∧
      (publishLoop env l).2 =
        (publishLoop env (l.filter fun e => !(env.published e.1.name e.2))).2 := by
  intro l
  induction l with
  | nil => simp [publishLoop]
  | cons e rest ih =>
      obtain ⟨pkg, ver⟩ := e
      cases hb : env.published pkg.name ver with
      | true =>
          have hf : List.filter (fun e => !(env.published e.1.name e.2))
              ((pkg, ver) :: rest) =
              List.filter (fun e => !(env.published e.1.name e.2)) rest := by
            simp [List.filter_cons, hb]
          rw [hf]
          have run1 : publishLoop env ((pkg, ver) :: rest) =
              (.skip pkg.name ver :: (publishLoop env rest).1,
               (publishLoop env rest).2) := by
            simp [publishLoop, hb]
          rw [run1]
          exact ⟨by simpa [publishes] using ih.1, ih.2⟩
      | false =>
          have hf : List.filter (fun e => !(env.published e.1.name e.2))
              ((pkg, ver) :: rest) =
              (pkg, ver) :: List.filter (fun e => !(env.published e.1.name e.2)) rest := by
            simp [List.filter_cons, hb]
          rw [hf]
          cases hu : env.uploadOk pkg.name with
          | false => constructor <;> simp [publishLoop, hb, hu]
          | true =>
              cases hi : env.indexOk pkg.name with
              | false => constructor <;> simp [publishLoop, hb, hu, hi]
              | true =>
                  constructor
                  · simpa [publishLoop, hb, hu, hi, publishes] using ih.1
                  · simpa [publishLoop, hb, hu, hi] using ih.2

/-- **C6.** Publish idempotence (publish.rs:86-139).  First: a package whose
planned version the registry already reports is logged as a skip — no publish
invocation — and the loop continues with the rest.  Second: in a re-run whose
registry answers cover everything already published (what the index reported
before plus what the first run published), every package published by the
first run is skipped by the second and never re-published.  Third: a run's
publish sequence and final error are exactly those of the plan restricted to
its not-yet-published entries, in unchanged relative order. -/
theorem c6_publish_skip_idempotent :
    (∀ (env : PubEnv) (p : Pkg) (v : String) (rest : List (Pkg × String)),
      env.published p.name v = true →
      publishLoop env ((p, v) :: rest) =
        (.skip p.name v :: (publishLoop env rest).1, (publishLoop env rest).2)) ∧
    (∀ (env0 env1 : PubEnv) (l : List (Pkg × String)),
      (∀ n v, env0.published n v = true → env1.published n v = true) →
      (∀ n v, PubAction.publish n v ∈ (publishLoop env0 l).1 →
        env1.published n v = true) →
      ∀ n v, PubAction.publish n v ∈ (publishLoop env0 l).1 →
        PubAction.skip n v ∈ (publishLoop env1 l).1 ∧
        PubAction.publish n v ∉ (publishLoop env1 l).1) ∧
    (∀ (env : PubEnv) (l : List (Pkg × String)),
      publishes (publishLoop env l).1 =
        publishes (publishLoop env
          (l.filter fun e => !(env.published e.1.name e.2))).1 ∧
      (publishLoop env l).2 =
        (publishLoop env (l.filter fun e => !(env.published e.1.name e.2))).2) := by
  refine ⟨?_, ?_, ?_⟩
  · intro env p v rest h
    simp [publishLoop, h]
  · intro env0 env1 l h0 h1 n v hp
    refine ⟨publishLoop_rerun_skips env0 env1 h0 l h1 n v hp, fun hmem => ?_⟩
    have hfalse := publishLoop_publish_not_published env1 l n v hmem
    rw [h1 n v hp] at hfalse
    simp at hfalse
  · intro env l
    exact publishLoop_skip_filter env l

/-- Closed witness for `c6_publish_skip_idempotent`: the spec's three-package
scenario — run 1 publishes `a` and fails on `b`; in run 2 the registry reports
`a`, which is skipped and not re-published. -/
theorem c6_publish_skip_idempotent_witness :
    PubAction.skip "a" "1.0.0" ∈ (publishLoop demoPubEnv1 demoPlan).1 ∧
    PubAction.publish "a" "1.0.0" ∉ (publishLoop demoPubEnv1 demoPlan).1 :=
  c6_publish_skip_idempotent.2.1 demoPubEnv0 demoPubEnv1 demoPlan
    (fun _ _ _ => rfl) (fun _ _ _ => rfl) "a" "1.0.0" (by decide)

theorem classifyPkg_ne_empty (m : String → String → Bool) (cfg : WorkspaceConfig)
    (p : Pkg) : classifyPkg m cfg p ≠ .error .EmptyWorkspace := by
  intro h
  cases hms : matchExclude m cfg.exclude p.path with
  | some pat => simp [classifyPkg, hms] at h
  | none =>
      cases hf : p.manifest_file with
      | none => simp [classifyPkg, hms, hf] at h
      | some f =>
          rcases hmg : matchedGroups m cfg.groups p.path with _ | ⟨g, _ | ⟨g2, tail⟩⟩ <;>
            by_cases hcond : (parseCrateManifest f == some CrateVersion.workspaceTable) = true <;>
            simp [classifyPkg, hms, hf, hmg, hcond] at h

theorem classifyAll_error_imp (m : String → String → Bool) (cfg : WorkspaceConfig) :
    ∀ (members : List Pkg) (gs : Groups) (ne : Bool) (e : WsError),
      classifyAll m cfg members gs ne = .error e →
      ∃ p ∈ members, classifyPkg m cfg p = .error e := by
  intro members
  induction members with
  | nil => intro gs ne e h; simp [classifyAll] at h
  | cons p rest ih =>
      intro gs ne e h
      simp only [classifyAll] at h
      cases hc : classifyPkg m cfg p with
      | error e' =>
          simp only [hc] at h
          injection h with he
          exact ⟨p, List.mem_cons_self _ _, by rw [hc, he]⟩
      | ok gp =>
          obtain ⟨gn, pat⟩ := gp
          simp only [hc] at h
          obtain ⟨q, hq, hcq⟩ := ih _ _ _ h
          exact ⟨q, List.mem_cons_of_mem _ hq, hcq⟩

theorem classifyAll_false_iff (m : String → String → Bool) (cfg : WorkspaceConfig) :
    ∀ (members : List Pkg) (gs : Groups) (ne : Bool),
      (∃ gs', classifyAll m cfg members gs ne = .ok (gs', false)) ↔
        (ne = false ∧
          ∀ p ∈ members, (matchExclude m cfg.exclude p.path).isSome = true) := by
  intro members
  induction members with
  | nil =>
      intro gs ne
      constructor
      · rintro ⟨gs', h⟩
        simp only [classifyAll] at h
        injection h with h2
        injection h2 with h3 h4
        exact ⟨h4, by simp⟩
      · rintro ⟨rfl, _⟩
        exact ⟨gs, by simp [classifyAll]⟩
  | cons p rest ih =>
      intro gs ne
      constructor
      · rintro ⟨gs', h⟩
        simp only [classifyAll] at h
        cases hc : classifyPkg m cfg p with
        | error e => simp [hc] at h
        | ok gp =>
            obtain ⟨gn, pat⟩ := gp
            simp only [hc] at h
            obtain ⟨hflag, hrest⟩ := (ih _ _).mp ⟨gs', h⟩
            have hne : ne = false := by
              cases ne
              · rfl
              · simp at hflag
            have hnone : (matchExclude m cfg.exclude p.path).isNone = false := by
              cases h' : (matchExclude m cfg.exclude p.path).isNone
              · rfl
              · rw [hne, h'] at hflag; simp at hflag
            refine ⟨hne, fun q hq => ?_⟩
            rcases List.mem_cons.mp hq with rfl | hq'
            · cases hms : matchExclude m cfg.exclude q.path with
              | none => rw [hms] at hnone; simp at hnone
              | some pat2 => rfl
            · exact hrest q hq'
      · rintro ⟨rfl, hall⟩
        have hsome := hall p (List.mem_cons_self _ _)
        obtain ⟨pat, hpat⟩ := Option.isSome_iff_exists.mp hsome
        have hcp : classifyPkg m cfg p = .ok (GroupName.Excluded, some pat) := by
          simp [classifyPkg, hpat]
        have hflag : (false || (matchExclude m cfg.exclude p.path).isNone) = false := by
          simp [hpat]
        obtain ⟨gs', hrec⟩ :=
          (ih (groupsPush gs GroupName.Excluded (p, some pat))
            (false || (matchExclude m cfg.exclude p.path).isNone)).mpr
            ⟨hflag, fun q hq => hall q (List.mem_cons_of_mem _ hq)⟩
        exact ⟨gs', by simp only [classifyAll, hcp]; exact hrec⟩

theorem postClassify_ne_empty (cfg : WorkspaceConfig) (gs : Groups) (all : Bool) :
    postClassify cfg gs all ≠ .error .EmptyWorkspace := by
  intro h
  by_cases hu : (unmatchedCustom cfg gs).isEmpty = true
  · cases hx : cfg.exclude with
    | none => simp [postClassify, hu, hx] at h
    | some spec =>
        by_cases he : (unmatchedExclude spec gs).isEmpty = true
        · simp [postClassify, hu, hx, he] at h
        · rw [Bool.not_eq_true] at he
          simp [postClassify, hu, hx, he] at h
  · rw [Bool.not_eq_true] at hu
    simp [postClassify, hu] at h

/-- **C5 (counterexample).** `non_empty` (pkg.rs:295) is set only after the
exclusion check declines, so a workspace whose only member is successfully
assigned to `Excluded` still fails with `EmptyWorkspace` — refuting the claim
that a run assigning every member to some group (including `Excluded`) never
fails with `EmptyWorkspace`. -/
theorem c5_empty_workspace_counterexample :
    get_group_packages demoMatch cfgAllExcluded [demoPkg "a" "pkg-a" []] false =
      .error .EmptyWorkspace ∧
    classifyPkg demoMatch cfgAllExcluded (demoPkg "a" "pkg-a" []) =
      .ok (.Excluded, some "pkg-a") :=
  ⟨rfl, rfl⟩

/-- **C5 (amended).** Given a well-formed group declaration, the run fails with
`EmptyWorkspace` exactly when every workspace member (vacuously, also when
there are none) is captured by an exclusion pattern — members assigned to
`Excluded` do not count as "classified" for this check; a run in which some
member lands in `Default` or a custom group never fails with
`EmptyWorkspace`. -/
theorem c5_empty_workspace_amended (m : String → String → Bool)
    (cfg : WorkspaceConfig) (members : List Pkg) (all : Bool) (init : Groups)
    (hb : buildNamedGroups cfg = .ok init) :
    (get_group_packages m cfg members all = .error .EmptyWorkspace ↔
      ∀ p ∈ members, (matchExclude m cfg.exclude p.path).isSome = true) := by
  cases hc : classifyAll m cfg members init false with
  | error e =>
      have hg : get_group_packages m cfg members all = .error e := by
        simp only [get_group_packages, hb, hc]
      rw [hg]
      constructor
      · intro h
        injection h with he
        obtain ⟨p, hp, hcp⟩ := classifyAll_error_imp m cfg members init false e hc
        exact absurd (he ▸ hcp) (classifyPkg_ne_empty m cfg p)
      · intro hall
        obtain ⟨gs', h'⟩ :=
          (classifyAll_false_iff m cfg members init false).mpr ⟨rfl, hall⟩
        rw [hc] at h'
        exact absurd h' (by simp)
  | ok r =>
      obtain ⟨gs, flag⟩ := r
      cases flag with
      | false =>
          have hg : get_group_packages m cfg members all = .error .EmptyWorkspace := by
            simp only [get_group_packages, hb, hc]
            simp
          rw [hg]
          constructor
          · intro _
            exact ((classifyAll_false_iff m cfg members init false).mp ⟨gs, hc⟩).2
          · intro _
            rfl
      | true =>
          have hg : get_group_packages m cfg members all = postClassify cfg gs all := by
            simp only [get_group_packages, hb, hc]
            simp
          rw [hg]
          constructor
          · intro h
            exact absurd h (postClassify_ne_empty cfg gs all)
          · intro hall
            obtain ⟨gs', h'⟩ :=
              (classifyAll_false_iff m cfg members init false).mpr ⟨rfl, hall⟩
            rw [hc] at h'
            injection h' with h2
            injection h2 with h3 h4
            simp at h4

/-- Closed witness for `c5_empty_workspace_amended`. -/
theorem c5_empty_workspace_amended_witness :
    (get_group_packages demoMatch cfgAllExcluded [demoPkg "a" "pkg-a" []] false =
        .error .EmptyWorkspace ↔
      ∀ p ∈ [demoPkg "a" "pkg-a" []],
        (matchExclude demoMatch cfgAllExcluded.exclude p.path).isSome = true) :=
  c5_empty_workspace_amended demoMatch cfgAllExcluded [demoPkg "a" "pkg-a" []]
    false [(GroupName.Default, (none, [])), (GroupName.Excluded, (none, []))]
    (by rfl)

theorem unmatchedExclude_mem (spec : ExcludeSpec) (gs : Groups) (pat : String) :
    pat ∈ unmatchedExclude spec gs ↔
      pat ∈ spec.members ∧ recordedPat gs GroupName.Excluded pat = false := by
  rw [unmatchedExclude, dedupSeen_mem]
  simp [List.mem_filter]

theorem unmatchedCustom_mem (cfg : WorkspaceConfig) (gs : Groups)
    (gname : String) (pats : List String)
    (h : (gname, pats) ∈ unmatchedCustom cfg gs) :
    ∃ g ∈ cfg.groups, g.name = gname ∧ pats ≠ [] ∧
      ∀ pat ∈ pats, pat ∈ g.members ∧
        recordedPat gs (GroupName.Custom g.name) pat = false := by
  obtain ⟨g, hg, hfg⟩ := List.mem_filterMap.mp h
  by_cases hemp : (dedupSeen [] (g.members.filter fun pat =>
      !recordedPat gs (GroupName.Custom g.name) pat)).isEmpty = true
  · rw [if_pos hemp] at hfg
    cases hfg
  · rw [if_neg hemp] at hfg
    injection hfg with h1
    injection h1 with h2 h3
    refine ⟨g, hg, h2, ?_, ?_⟩
    · intro h0
      rw [h3, h0] at hemp
      exact hemp rfl
    · intro pat hpat
      rw [← h3] at hpat
      obtain ⟨hfil, _⟩ := (dedupSeen_mem pat _ []).mp hpat
      obtain ⟨hm, hpred⟩ := List.mem_filter.mp hfil
      exact ⟨hm, by simpa using hpred⟩

theorem unmatchedCustom_complete (cfg : WorkspaceConfig) (gs : Groups)
    (g : GroupSpec) (hg : g ∈ cfg.groups) (pat : String) (hpat : pat ∈ g.members)
    (hrec : recordedPat gs (GroupName.Custom g.name) pat = false) :
    ∃ pats, (g.name, pats) ∈ unmatchedCustom cfg gs ∧ pat ∈ pats := by
  have hmem : pat ∈ dedupSeen [] (g.members.filter fun pat =>
      !recordedPat gs (GroupName.Custom g.name) pat) := by
    rw [dedupSeen_mem]
    exact ⟨List.mem_filter.mpr ⟨hpat, by simp [hrec]⟩, by simp⟩
  have hne : (dedupSeen [] (g.members.filter fun pat =>
      !recordedPat gs (GroupName.Custom g.name) pat)).isEmpty ≠ true := by
    intro h0
    rw [List.isEmpty_iff] at h0
    rw [h0] at hmem
    cases hmem
  refine ⟨_, List.mem_filterMap.mpr ⟨g, hg, ?_⟩, hmem⟩
  rw [if_neg hne]

theorem unmatchedCustom_nonempty_iff (cfg : WorkspaceConfig) (gs : Groups) :
    unmatchedCustom cfg gs ≠ [] ↔
      ∃ g ∈ cfg.groups, ∃ pat ∈ g.members,
        recordedPat gs (GroupName.Custom g.name) pat = false := by
  constructor
  · intro h
    obtain ⟨⟨gname, pats⟩, hmem⟩ := List.exists_mem_of_ne_nil _ h
    obtain ⟨g, hg, _, hpne, hall⟩ := unmatchedCustom_mem cfg gs gname pats hmem
    obtain ⟨pat, hpat⟩ := List.exists_mem_of_ne_nil _ hpne
    obtain ⟨hm, hr⟩ := hall pat hpat
    exact ⟨g, hg, pat, hm, hr⟩
  · rintro ⟨g, hg, pat, hpat, hrec⟩
    obtain ⟨pats, hmem, _⟩ := unmatchedCustom_complete cfg gs g hg pat hpat hrec
    intro h0
    rw [h0] at hmem
    cases hmem

theorem unmatchedExclude_nonempty_iff (spec : ExcludeSpec) (gs : Groups) :
    unmatchedExclude spec gs ≠ [] ↔
      ∃ pat ∈ spec.members, recordedPat gs GroupName.Excluded pat = false := by
  constructor
  · intro h
    obtain ⟨pat, hmem⟩ := List.exists_mem_of_ne_nil _ h
    obtain ⟨hm, hr⟩ := (unmatchedExclude_mem spec gs pat).mp hmem
    exact ⟨pat, hm, hr⟩
  · rintro ⟨pat, hm, hr⟩
    have hmem := (unmatchedExclude_mem spec gs pat).mpr ⟨hm, hr⟩
    intro h0
    rw [h0] at hmem
    cases hmem

theorem postClassify_error_iff (cfg : WorkspaceConfig) (gs : Groups) (all : Bool) :
    (∃ e, postClassify cfg gs all = .error e) ↔
      (unmatchedCustom cfg gs ≠ [] ∨
        ∃ spec, cfg.exclude = some spec ∧ unmatchedExclude spec gs ≠ []) := by
  by_cases hu : (unmatchedCustom cfg gs).isEmpty = true
  · have hunil : unmatchedCustom cfg gs = [] := List.isEmpty_iff.mp hu
    cases hx : cfg.exclude with
    | none =>
        constructor
        · rintro ⟨e, he⟩
          simp [postClassify, hu, hx] at he
        · rintro (h | ⟨spec, hs, _⟩)
          · exact absurd hunil h
          · simp at hs
    | some spec =>
        by_cases he : (unmatchedExclude spec gs).isEmpty = true
        · constructor
          · rintro ⟨e, hee⟩
            simp [postClassify, hu, hx, he] at hee
          · rintro (h | ⟨spec', hs, hne⟩)
            · exact absurd hunil h
            · injection hs with hs'
              subst hs'
              exact absurd (List.isEmpty_iff.mp he) hne
        · rw [Bool.not_eq_true] at he
          constructor
          · intro _
            refine .inr ⟨spec, rfl, fun h0 => ?_⟩
            rw [h0] at he
            simp at he
          · intro _
            exact ⟨.UnmatchedExcludeGroupPattern (unmatchedExclude spec gs),
              by simp [postClassify, hu, hx, he]⟩
  · rw [Bool.not_eq_true] at hu
    constructor
    · intro _
      refine .inl fun h0 => ?_
      rw [h0] at hu
      simp at hu
    · intro _
      exact ⟨.UnmatchedCustomGroupPattern (unmatchedCustom cfg gs),
        by simp [postClassify, hu]⟩

theorem postClassify_custom_inv (cfg : WorkspaceConfig) (gs : Groups) (all : Bool)
    (u : List (String × List String))
    (h : postClassify cfg gs all = .error (.UnmatchedCustomGroupPattern u)) :
    u = unmatchedCustom cfg gs := by
  by_cases hu : (unmatchedCustom cfg gs).isEmpty = true
  · cases hx : cfg.exclude with
    | none => simp [postClassify, hu, hx] at h
    | some spec =>
        by_cases he : (unmatchedExclude spec gs).isEmpty = true
        · simp [postClassify, hu, hx, he] at h
        · rw [Bool.not_eq_true] at he
          simp [postClassify, hu, hx, he] at h
  · rw [Bool.not_eq_true] at hu
    simp [postClassify, hu] at h
    exact h.symm

theorem postClassify_exclude_inv (cfg : WorkspaceConfig) (gs : Groups) (all : Bool)
    (s : List String)
    (h : postClassify cfg gs all = .error (.UnmatchedExcludeGroupPattern s)) :
    ∃ spec, cfg.exclude = some spec ∧ s = unmatchedExclude spec gs := by
  by_cases hu : (unmatchedCustom cfg gs).isEmpty = true
  · cases hx : cfg.exclude with
    | none => simp [postClassify, hu, hx] at h
    | some spec =>
        by_cases he : (unmatchedExclude spec gs).isEmpty = true
        · simp [postClassify, hu, hx, he] at h
        · rw [Bool.not_eq_true] at he
          simp [postClassify, hu, hx, he] at h
          exact ⟨spec, rfl, h.symm⟩
  · rw [Bool.not_eq_true] at hu
    simp [postClassify, hu] at h

/-- **C4 (counterexample).** The unmatched-pattern phase compares a declared
pattern against the *recorded first-match* pattern of each package, not
against glob matching: with group `g = ["crates/*", "crates/foo"]` and a
single package at `crates/foo`, the package is recorded under `crates/*`, so
`crates/foo` is reported unmatched even though it glob-matches the package's
path — refuting "a pattern that matches at least one package's path is never
reported as unmatched". -/
theorem c4_unmatched_patterns_counterexample :
    get_group_packages demoMatch cfgShadow [demoPkg "foo" "crates/foo" []] false =
      .error (.UnmatchedCustomGroupPattern [("g", ["crates/foo"])]) ∧
    demoMatch "crates/foo" (demoPkg "foo" "crates/foo" []).path = true ∧
    (∃ g ∈ cfgShadow.groups, "crates/foo" ∈ g.members) :=
  ⟨rfl, rfl, by decide⟩

/-- **C4 (amended).** Once every package is classified (the member loop
succeeded with a non-empty workspace), the run fails if and only if some
declared member pattern — of a custom group or of the exclusion group — was
not recorded as the claiming first-match pattern of any package in its group;
all such unrecorded custom patterns are collected into one
`UnmatchedCustomGroupPattern` error grouped per group (respectively
`UnmatchedExcludeGroupPattern`), rather than failing on the first miss; and a
pattern recorded as some package's claiming pattern is never reported.  (A
pattern that glob-matches a package may still be reported when every matching
package was claimed by an earlier pattern or by exclusion.) -/
theorem c4_unmatched_patterns (m : String → String → Bool)
    (cfg : WorkspaceConfig) (members : List Pkg) (all : Bool)
    (init gs : Groups) (hb : buildNamedGroups cfg = .ok init)
    (hc : classifyAll m cfg members init false = .ok (gs, true)) :
    ((∃ e, get_group_packages m cfg members all = .error e) ↔
      ((∃ g ∈ cfg.groups, ∃ pat ∈ g.members,
          recordedPat gs (GroupName.Custom g.name) pat = false) ∨
        (∃ spec, cfg.exclude = some spec ∧ ∃ pat ∈ spec.members,
          recordedPat gs GroupName.Excluded pat = false))) ∧
    (∀ u, get_group_packages m cfg members all =
        .error (.UnmatchedCustomGroupPattern u) →
      (∀ gname pats, (gname, pats) ∈ u → ∀ pat ∈ pats,
        ∃ g ∈ cfg.groups, g.name = gname ∧ pat ∈ g.members ∧
          recordedPat gs (GroupName.Custom g.name) pat = false) ∧
      (∀ g ∈ cfg.groups, ∀ pat ∈ g.members,
        recordedPat gs (GroupName.Custom g.name) pat = false →
        ∃ pats, (g.name, pats) ∈ u ∧ pat ∈ pats)) ∧
    (∀ s spec, get_group_packages m cfg members all =
        .error (.UnmatchedExcludeGroupPattern s) →
      cfg.exclude = some spec →
      (∀ pat ∈ s, pat ∈ spec.members ∧
        recordedPat gs GroupName.Excluded pat = false) ∧
      (∀ pat ∈ spec.members, recordedPat gs GroupName.Excluded pat = false →
        pat ∈ s)) := by
  have hg : get_group_packages m cfg members all = postClassify cfg gs all := by
    simp only [get_group_packages, hb, hc]
    simp
  rw [hg]
  refine ⟨?_, ?_, ?_⟩
  · rw [postClassify_error_iff]
    constructor
    · rintro (h | ⟨spec, hs, hne⟩)
      · exact .inl ((unmatchedCustom_nonempty_iff cfg gs).mp h)
      · exact .inr ⟨spec, hs, (unmatchedExclude_nonempty_iff spec gs).mp hne⟩
    · rintro (⟨g, hgm, pat, hpat, hrec⟩ | ⟨spec, hs, pat, hpat, hrec⟩)
      · exact .inl ((unmatchedCustom_nonempty_iff cfg gs).mpr ⟨g, hgm, pat, hpat, hrec⟩)
      · exact .inr ⟨spec, hs,
          (unmatchedExclude_nonempty_iff spec gs).mpr ⟨pat, hpat, hrec⟩⟩
  · intro u hu
    have hueq := postClassify_custom_inv cfg gs all u hu
    subst hueq
    constructor
    · intro gname pats hmem pat hpat
      obtain ⟨g, hgm, hname, _, hall⟩ := unmatchedCustom_mem cfg gs gname pats hmem
      obtain ⟨hm, hr⟩ := hall pat hpat
      exact ⟨g, hgm, hname, hm, hname ▸ hr⟩
    · intro g hgm pat hpat hrec
      exact unmatchedCustom_complete cfg gs g hgm pat hpat hrec
  · intro s spec hs hx
    obtain ⟨spec', hx', hseq⟩ := postClassify_exclude_inv cfg gs all s hs
    rw [hx] at hx'
    injection hx' with hspec
    subst hspec
    subst hseq
    constructor
    · intro pat hpat
      exact (unmatchedExclude_mem spec gs pat).mp hpat
    · intro pat hm hr
      exact (unmatchedExclude_mem spec gs pat).mpr ⟨hm, hr⟩

/-- Closed witness for `c4_unmatched_patterns`: a workspace with no custom
groups and no exclusion, whose single member classifies into `Default`. -/
theorem c4_unmatched_patterns_witness :
    ((∃ e, get_group_packages demoMatch demoCfg [demoPkg "a" "pkg-a" []] false =
        .error e) ↔
      ((∃ g ∈ demoCfg.groups, ∃ pat ∈ g.members,
          recordedPat demoGsA (GroupName.Custom g.name) pat = false) ∨
        (∃ spec, demoCfg.exclude = some spec ∧ ∃ pat ∈ spec.members,
          recordedPat demoGsA GroupName.Excluded pat = false))) ∧
    (∀ u, get_group_packages demoMatch demoCfg [demoPkg "a" "pkg-a" []] false =
        .error (.UnmatchedCustomGroupPattern u) →
      (∀ gname pats, (gname, pats) ∈ u → ∀ pat ∈ pats,
        ∃ g ∈ demoCfg.groups, g.name = gname ∧ pat ∈ g.members ∧
          recordedPat demoGsA (GroupName.Custom g.name) pat = false) ∧
      (∀ g ∈ demoCfg.groups, ∀ pat ∈ g.members,
        recordedPat demoGsA (GroupName.Custom g.name) pat = false →
        ∃ pats, (g.name, pats) ∈ u ∧ pat ∈ pats)) ∧
    (∀ s spec, get_group_packages demoMatch demoCfg [demoPkg "a" "pkg-a" []] false =
        .error (.UnmatchedExcludeGroupPattern s) →
      demoCfg.exclude = some spec →
      (∀ pat ∈ s, pat ∈ spec.members ∧
        recordedPat demoGsA GroupName.Excluded pat = false) ∧
      (∀ pat ∈ spec.members, recordedPat demoGsA GroupName.Excluded pat = false →
        pat ∈ s)) :=
  c4_unmatched_patterns demoMatch demoCfg [demoPkg "a" "pkg-a" []] false
    demoInit demoGsA (by rfl) (by rfl)

theorem indexOf_append_left (a : String) :
    ∀ (l l' : List String), a ∈ l → (l ++ l').indexOf a = l.indexOf a := by
  intro l
  induction l with
  | nil => intro l' h; cases h
  | cons x xs ih =>
      intro l' h
      rw [List.cons_append, List.indexOf_cons, List.indexOf_cons]
      cases hxa : x == a with
      | true => rfl
      | false =>
          simp only [cond_false]
          have hne : a ≠ x := fun hax => by simp [hax] at hxa
          rcases List.mem_cons.mp h with rfl | h'
          · exact absurd rfl hne
          · rw [ih l' h']

theorem indexOf_append_self (a : String) :
    ∀ l : List String, a ∉ l → (l ++ [a]).indexOf a = l.length := by
  intro l
  induction l with
  | nil => simp [List.indexOf_cons]
  | cons x xs ih =>
      intro h
      have hxa : (x == a) = false := by
        have : a ≠ x := fun hax => h (hax ▸ List.mem_cons_self _ _)
        simp [beq_iff_eq]
        exact fun hx => this hx.symm
      rw [List.cons_append, List.indexOf_cons, hxa]
      simp only [cond_false, List.length_cons]
      rw [ih fun hx => h (List.mem_cons_of_mem _ hx)]

theorem wsDeps_mem (pkgs : List Pkg) (p q : Pkg) (h : q ∈ wsDeps pkgs p) :
    q ∈ pkgs := by
  obtain ⟨d, _, hf⟩ := List.mem_filterMap.mp h
  exact List.mem_of_find?_eq_some hf

theorem goodOrder_nil (pkgs : List Pkg) : goodOrder pkgs [] := by
  intro r _ hrm
  exact absurd hrm (List.not_mem_nil _)

theorem goodOrder_append (pkgs : List Pkg)
    (hinj : ∀ p ∈ pkgs, ∀ q ∈ pkgs, p.manifest_path = q.manifest_path → p = q)
    (vs : List String) (p : Pkg) (hp : p ∈ pkgs) (hnp : p.manifest_path ∉ vs)
    (hdeps : ∀ q ∈ wsDeps pkgs p, q.manifest_path ∈ vs)
    (hg : goodOrder pkgs vs) : goodOrder pkgs (vs ++ [p.manifest_path]) := by
  intro r hr hrmem q hq
  rcases List.mem_append.mp hrmem with hrv | hrp
  · obtain ⟨hqv, hlt⟩ := hg r hr hrv q hq
    refine ⟨List.mem_append_left _ hqv, ?_⟩
    rw [indexOf_append_left _ vs [p.manifest_path] hqv,
        indexOf_append_left _ vs [p.manifest_path] hrv]
    exact hlt
  · have hre : r.manifest_path = p.manifest_path := by simpa using hrp
    have hrp' : r = p := hinj r hr p hp hre
    subst hrp'
    have hqv := hdeps q hq
    refine ⟨List.mem_append_left _ hqv, ?_⟩
    rw [indexOf_append_left _ vs [r.manifest_path] hqv,
        indexOf_append_self _ vs hnp]
    exact List.indexOf_lt_length.mpr hqv

theorem visitMany_ok_props (pkgs : List Pkg)
    (hinj : ∀ p ∈ pkgs, ∀ q ∈ pkgs, p.manifest_path = q.manifest_path → p = q) :
    ∀ (allowed : List String) (work : List Pkg) (vs vs' : List String),
      (∀ p ∈ work, p ∈ pkgs) →
      visitMany pkgs allowed work vs = .ok vs' →
      ((∃ ex, vs' = vs ++ ex) ∧
        (∀ p ∈ work, p.manifest_path ∈ vs') ∧
        (∀ x ∈ vs', x ∈ vs ∨
          ∃ q, q ∈ pkgs ∧ q.name ∈ allowed ∧ q.manifest_path = x) ∧
        (vs.Nodup → vs'.Nodup) ∧
        (goodOrder pkgs vs → goodOrder pkgs vs')) := by
  intro allowed work vs
  induction allowed, work, vs using visitMany.induct pkgs with
  | case1 allowed vs =>
      intro vs' _ heq
      simp only [visitMany] at heq
      injection heq with h1
      subst h1
      exact ⟨⟨[], by simp⟩, by simp, fun x hx => .inl hx, id, id⟩
  | case2 allowed p rest vs hmem ih =>
      intro vs' hwork heq
      simp only [visitMany, if_pos hmem] at heq
      obtain ⟨hpre, hmem2, hnew, hnd, hgood⟩ :=
        ih vs' (fun q hq => hwork q (List.mem_cons_of_mem _ hq)) heq
      refine ⟨hpre, ?_, hnew, hnd, hgood⟩
      intro q hq
      rcases List.mem_cons.mp hq with rfl | hq'
      · obtain ⟨ex, hex⟩ := hpre
        rw [hex]
        exact List.mem_append_left _ hmem
      · exact hmem2 q hq'
  | case3 allowed p rest vs hnmem hname e herr _ =>
      intro vs' _ heq
      simp only [visitMany] at heq
      rw [if_neg hnmem, dif_pos hname, herr] at heq
      exact Except.noConfusion heq
  | case4 allowed p rest vs hnmem hname vs₁ hok ihdeps ihrest =>
      intro vs' hwork heq
      simp only [visitMany] at heq
      rw [if_neg hnmem, dif_pos hname, hok] at heq
      have heq' : visitMany pkgs allowed rest (vs₁ ++ [p.manifest_path]) = .ok vs' :=
        heq
      obtain ⟨⟨ex1, hex1⟩, hmem1, hnew1, hnd1, hgood1⟩ :=
        ihdeps vs₁ (fun q hq => wsDeps_mem pkgs p q hq) hok
      obtain ⟨⟨ex2, hex2⟩, hmem2, hnew2, hnd2, hgood2⟩ :=
        ihrest vs' (fun q hq => hwork q (List.mem_cons_of_mem _ hq)) heq'
      have hppkgs : p ∈ pkgs := hwork p (List.mem_cons_self _ _)
      have hpnot1 : p.manifest_path ∉ vs₁ := by
        intro hmem
        rcases hnew1 _ hmem with hv | ⟨q, hqp, hqal, hqpath⟩
        · exact hnmem hv
        · have hqp2 : q = p := hinj q hqp p hppkgs hqpath
          rw [hqp2] at hqal
          have := (List.mem_filter.mp hqal).2
          simp at this
      refine ⟨⟨ex1 ++ [p.manifest_path] ++ ex2, by rw [hex2, hex1]; simp⟩,
        ?_, ?_, ?_, ?_⟩
      · intro q hq
        rcases List.mem_cons.mp hq with rfl | hq'
        · rw [hex2]
          exact List.mem_append_left _ (List.mem_append_right _ (by simp))
        · exact hmem2 q hq'
      · intro x hx
        rcases hnew2 x hx with hin | ⟨q, hqp, hqa, hqx⟩
        · rcases List.mem_append.mp hin with hin1 | hinp
          · rcases hnew1 x hin1 with hv | ⟨q, hqp, hqa, hqx⟩
            · exact .inl hv
            · exact .inr ⟨q, hqp, List.mem_of_mem_filter hqa, hqx⟩
          · have hxp : x = p.manifest_path := by simpa using hinp
            exact .inr ⟨p, hppkgs, hname, hxp.symm⟩
        · exact .inr ⟨q, hqp, hqa, hqx⟩
      · intro hnd
        refine hnd2 ?_
        rw [List.nodup_append]
        exact ⟨hnd1 hnd, List.nodup_singleton _,
          fun a ha hb => hpnot1 (List.mem_singleton.mp hb ▸ ha)⟩
      · intro hgd
        exact hgood2 (goodOrder_append pkgs hinj vs₁ p hppkgs hpnot1
          (fun q hq => hmem1 q hq) (hgood1 hgd))
  | case5 allowed p rest vs hnmem hnal =>
      intro vs' _ heq
      simp [visitMany, hnmem, hnal] at heq

/-- **C1.** The dependency-graph ordering (spec §4.2, consumed at
publish.rs:71-87), over a package set with injective manifest locations:
a successful run lists every input package's manifest location exactly once
and nothing else, places every intra-workspace dependency before its
dependent, a dependency cycle always yields the fatal cycle error (the walk
itself is a total function, so it can neither loop forever nor drop
packages), and the output is a deterministic function of the input. -/
theorem c1_dag_topological_order (pkgs : List Pkg)
    (hinj : ∀ p ∈ pkgs, ∀ q ∈ pkgs, p.manifest_path = q.manifest_path → p = q) :
    (∀ order, dag pkgs = .ok order →
      (∀ p ∈ pkgs, order.count p.manifest_path = 1) ∧
      (∀ x ∈ order, ∃ p ∈ pkgs, p.manifest_path = x) ∧
      (∀ p ∈ pkgs, ∀ q ∈ wsDeps pkgs p,
        order.indexOf q.manifest_path < order.indexOf p.manifest_path)) ∧
    (∀ p, Relation.TransGen (DependsOn pkgs) p p → ∃ e, dag pkgs = .error e) ∧
    (∀ o₁ o₂, dag pkgs = .ok o₁ → dag pkgs = .ok o₂ → o₁ = o₂) := by
  have main : ∀ order, dag pkgs = .ok order →
      order.Nodup ∧ (∀ p ∈ pkgs, p.manifest_path ∈ order) ∧
      (∀ x ∈ order, ∃ q ∈ pkgs, q.manifest_path = x) ∧ goodOrder pkgs order := by
    intro order heq
    rw [dag] at heq
    obtain ⟨⟨ex, hex⟩, hmem, hnew, hnd, hgood⟩ :=
      visitMany_ok_props pkgs hinj (pkgs.map (·.name)) pkgs [] order
        (fun p hp => hp) heq
    refine ⟨hnd List.nodup_nil, hmem, ?_, hgood (goodOrder_nil pkgs)⟩
    intro x hx
    rcases hnew x hx with h0 | ⟨q, hq, _, hqx⟩
    · exact absurd h0 (List.not_mem_nil _)
    · exact ⟨q, hq, hqx⟩
  refine ⟨?_, ?_, ?_⟩
  · intro order heq
    obtain ⟨hnd, hmem, hels, hgood⟩ := main order heq
    refine ⟨fun p hp => List.count_eq_one_of_mem hnd (hmem p hp), hels, ?_⟩
    intro p hp q hq
    exact (hgood p hp (hmem p hp) q hq).2
  · intro p hcyc
    cases hdag : dag pkgs with
    | error e => exact ⟨e, rfl⟩
    | ok order =>
        obtain ⟨_, hmem, _, hgood⟩ := main order hdag
        exfalso
        have step : ∀ a b, DependsOn pkgs a b →
            order.indexOf b.manifest_path < order.indexOf a.manifest_path := by
          rintro a b ⟨ha, hb⟩
          exact (hgood a ha (hmem a ha) b hb).2
        have htrans : ∀ a b, Relation.TransGen (DependsOn pkgs) a b →
            order.indexOf b.manifest_path < order.indexOf a.manifest_path := by
          intro a b h
          induction h with
          | single hr => exact step _ _ hr
          | tail _ hbc ih => exact lt_trans (step _ _ hbc) ih
        exact lt_irrefl _ (htrans p p hcyc)
  · intro o₁ o₂ h1 h2
    rw [h1] at h2
    injection h2

/-- Closed witness for `c1_dag_topological_order`: the chain `a ← b ← c`. -/
theorem c1_dag_topological_order_witness :
    (∀ order, dag chainPkgs = .ok order →
      (∀ p ∈ chainPkgs, order.count p.manifest_path = 1) ∧
      (∀ x ∈ order, ∃ p ∈ chainPkgs, p.manifest_path = x) ∧
      (∀ p ∈ chainPkgs, ∀ q ∈ wsDeps chainPkgs p,
        order.indexOf q.manifest_path < order.indexOf p.manifest_path)) ∧
    (∀ p, Relation.TransGen (DependsOn chainPkgs) p p →
      ∃ e, dag chainPkgs = .error e) ∧
    (∀ o₁ o₂, dag chainPkgs = .ok o₁ → dag chainPkgs = .ok o₂ → o₁ = o₂) :=
  c1_dag_topological_order chainPkgs (by decide)

end CargoWorkspaces
